import Mathlib

/-!
Verification development for the directional-statistics core of the
FRB/QSO sky-correlation analysis scripts.

Modelling conventions used throughout this file:

* Machine floating-point numbers are modelled by exact field arithmetic.
  The dipole-fit machinery is stated over an arbitrary `LinearOrderedField`
  so that it can be instantiated at `ℚ` (computable, used by the concrete
  evaluations below) and at `ℝ` (used for the trigonometric candidate grid
  of the source, which involves `π` and square roots).
* A Python float NaN is modelled by `Option` (`none` = NaN).
* A raised exception (for example the `ZeroDivisionError` that
  `np.average` raises when the weights sum to zero) is modelled by an
  `Option`-valued function returning `none`.
* NumPy arrays of length `n` are modelled as functions `Fin n → _`;
  boolean-mask selections that produce shorter arrays are modelled as
  `List`s in index order.
* The seeded random generator `np.random.default_rng(seed)` used by the
  permutation test is external library code; its output is modelled as an
  explicit stream of permutations (`ℕ → Equiv.Perm (Fin n)`), which for a
  fixed seed is a fixed deterministic stream.
-/

attribute [local semireducible] Rat.add Rat.sub Rat.mul Rat.inv Rat.ofScientific

/-- Dot product of a data unit vector with a candidate direction, the
`nvecs @ d` operation of the scripts. Vectors are triples. -/
def dot3 {K : Type} [LinearOrderedField K] (a b : K × K × K) : K :=
  a.1 * b.1 + a.2.1 * b.2.1 + a.2.2 * b.2.2

/-- Embedding of `np.sign` on exact numbers. -/
def npSign {K : Type} [LinearOrderedField K] (x : K) : K :=
  if x < 0 then -1 else if x = 0 then 0 else 1

/-- Embedding of `hemispheres` from `frb_cpt_dm_histogram.py`:
`sgn = np.sign(nvecs @ n0); return dm[sgn >= 0], dm[sgn < 0]`.
The two boolean-mask selections are modelled as lists in index order. -/
def hemispheres {K : Type} [LinearOrderedField K] {n : ℕ}
    (nvecs : Fin n → K × K × K) (dm : Fin n → K) (n0 : K × K × K) :
    List K × List K :=
  (((List.finRange n).filter fun i => decide (0 ≤ npSign (dot3 (nvecs i) n0))).map dm,
   ((List.finRange n).filter fun i => decide (npSign (dot3 (nvecs i) n0) < 0)).map dm)

/-- Python float modulus `x % 360.0` (result has the sign of the divisor,
so it lies in `[0, 360)`): `x - 360 * ⌊x / 360⌋`. -/
def pymod360 (x : ℚ) : ℚ :=
  x - 360 * ⌊x / 360⌋

/-- Embedding of `reflect_cpt` from `frb_qso_mirror_overlay.py`:
`ra' = (2*ra0 - ra) % 360.0` and `dec' = np.clip(2*dec0 - dec, -90, 90)`.
`np.clip` applies the lower bound first, then the upper bound. -/
def reflect_cpt (ra dec ra0 dec0 : ℚ) : ℚ × ℚ :=
  (pymod360 (2 * ra0 - ra), min 90 (max (-90) (2 * dec0 - dec)))

/-- Embedding of `crossing_angle` from `frb_qso_autocorr_sigma.py`.
`np.where(corr <= target)[0]` followed by the emptiness test and `idx[0]`
is the first index `i` with `corr[i] ≤ target`, modelled by
`List.findIdx?`.  The NaN returned when the profile never reaches the
target is modelled by `none`.  Out-of-range indexing (which would raise in
Python) is modelled by `List.getD` with junk default `0`; the theorems
below only use it at indices that exist. -/
def crossing_angle (deg corr : List ℚ) (target : ℚ) : Option ℚ :=
  match corr.findIdx? fun c => decide (c ≤ target) with
  | none => none
  | some i =>
    if 0 < i then
      some (deg.getD (i - 1) 0 +
        (target - corr.getD (i - 1) 0) * (deg.getD i 0 - deg.getD (i - 1) 0) /
          (corr.getD i 0 - corr.getD (i - 1) 0))
    else some (deg.getD i 0)

/-- Number of radial bins in `frb_qso_autocorr_sigma.py`:
`bins = np.arange(0, int(np.min([h, w]) / 2))` has this many entries,
with `bins[i] = i`. -/
def n_bins (h w : ℕ) : ℕ :=
  min h w / 2

/-- Squared Euclidean pixel distance of cell `(i, j)` from the grid
center, the square of `r = np.hypot(y - h/2, x - w/2)`.  The source
compares the nonnegative distance `r` against the nonnegative bin edges
`b` and `b+1`; those comparisons are encoded on squares (`b ≤ r ↔ b² ≤ r²`
for nonnegative numbers), which keeps the definition executable over `ℚ`. -/
def rsq (h w : ℕ) (i : Fin h) (j : Fin w) : ℚ :=
  ((i : ℚ) - (h : ℚ) / 2) ^ 2 + ((j : ℚ) - (w : ℚ) / 2) ^ 2

/-- All cells of the `h × w` grid, in row-major order. -/
def allCells (h w : ℕ) : List (Fin h × Fin w) :=
  (List.finRange h).flatMap fun i => (List.finRange w).map fun j => (i, j)

/-- The cells belonging to radial bin `b`: the mask
`(r >= bins[b]) & (r < bins[b+1])` with `bins[b] = b`. -/
def binCells (h w : ℕ) (b : ℕ) : List (Fin h × Fin w) :=
  (allCells h w).filter fun p =>
    decide (((b : ℚ)) ^ 2 ≤ rsq h w p.1 p.2) &&
    decide (rsq h w p.1 p.2 < ((b : ℚ) + 1) ^ 2)

/-- Embedding of `np.nanmean`: the mean of the non-NaN entries, NaN
(`none`) when there is no finite entry. -/
def nanmean (cells : List (Option ℚ)) : Option ℚ :=
  let fs := cells.filterMap id
  if fs.isEmpty then none else some (fs.sum / fs.length)

/-- Embedding of `np.deg2rad`: multiplication by `π / 180`. -/
noncomputable def deg2rad (x : ℝ) : ℝ :=
  x * (Real.pi / 180)

/-- Embedding of `np.rad2deg` and `np.degrees`: multiplication by `180 / π`. -/
noncomputable def rad2deg (x : ℝ) : ℝ :=
  x * (180 / Real.pi)

/-- Embedding of `sph_to_cart` from `frb_dipole_test.py`: elementwise
`x = cos(dec) cos(ra)`, `y = cos(dec) sin(ra)`, `z = sin(dec)` after
converting degrees to radians.  The stacked `N × 3` result array is
modelled as a function from indices to triples. -/
noncomputable def sph_to_cart {N : ℕ} (ra_deg dec_deg : Fin N → ℝ) :
    Fin N → ℝ × ℝ × ℝ :=
  fun i =>
    (Real.cos (deg2rad (dec_deg i)) * Real.cos (deg2rad (ra_deg i)),
     Real.cos (deg2rad (dec_deg i)) * Real.sin (deg2rad (ra_deg i)),
     Real.sin (deg2rad (dec_deg i)))

/-- Embedding of `unit_vectors` from `frb_cpt_dm_histogram.py`, which
computes the same formula as `sph_to_cart`. -/
noncomputable def unit_vectors {N : ℕ} (ra dec : Fin N → ℝ) :
    Fin N → ℝ × ℝ × ℝ :=
  fun i =>
    (Real.cos (deg2rad (dec i)) * Real.cos (deg2rad (ra i)),
     Real.cos (deg2rad (dec i)) * Real.sin (deg2rad (ra i)),
     Real.sin (deg2rad (dec i)))

/-- Embedding of `ang_sep` from `frb_sigma_axis_map.py`: great-circle
separation in degrees of two directions given in radians, with the cosine
clipped to `[-1, 1]` (`np.clip` applies the lower bound first). -/
noncomputable def ang_sep (ra1 dec1 ra2 dec2 : ℝ) : ℝ :=
  rad2deg (Real.arccos (min 1 (max (-1)
    (Real.sin dec1 * Real.sin dec2 +
      Real.cos dec1 * Real.cos dec2 * Real.cos (ra1 - ra2)))))

/-- Search radius `THETA_MAX = 15.0` degrees of `frb_sigma_axis_map.py`. -/
def THETA_MAX : ℝ := 15

/-- Sky fraction `F_SKY = 0.66` of `frb_sigma_axis_map.py`. -/
def F_SKY : ℝ := 0.66

/-- Square degrees per steradian, `(180 / π) ** 2`. -/
noncomputable def DEG2_PER_SR : ℝ := (180 / Real.pi) ^ 2

/-- Total usable sky area `A_tot_deg2 = 4π · (180/π)² · f_sky`. -/
noncomputable def A_tot_deg2 : ℝ := 4 * Real.pi * DEG2_PER_SR * F_SKY

/-- Search-cap area `A_in_deg2 = 2π (1 − cos θ_max) · (180/π)² · f_sky`. -/
noncomputable def A_in_deg2 : ℝ :=
  2 * Real.pi * (1 - Real.cos (deg2rad THETA_MAX)) * DEG2_PER_SR * F_SKY

/-- Expected cap count `mu_in = N · (A_in / A_tot)` under the uniform
Poisson null model. -/
noncomputable def mu_in (N : ℕ) : ℝ := (N : ℝ) * (A_in_deg2 / A_tot_deg2)

/-- Poisson standard deviation `sigma_in = sqrt(mu_in)`. -/
noncomputable def sigma_in (N : ℕ) : ℝ := Real.sqrt (mu_in N)

/-- Embedding of the per-node density count of `frb_sigma_axis_map.py`:
`density[i, j] = np.sum(theta < THETA_MAX)`, where `theta` is the angular
separation of every cluster centroid (stored in radians) from the grid
node `(r, d)` given in degrees. -/
noncomputable def density_at (cents : List (ℝ × ℝ)) (r d : ℝ) : ℕ :=
  (cents.filter fun c =>
    decide (ang_sep c.1 c.2 (deg2rad r) (deg2rad d) < THETA_MAX)).length

/-- Embedding of the per-node standard score of `frb_sigma_axis_map.py`:
`Z_map = (density - mu_in) / sigma_in` with `N` the number of centroids. -/
noncomputable def Z_at (cents : List (ℝ × ℝ)) (r d : ℝ) : ℝ :=
  ((density_at cents r d : ℝ) - mu_in cents.length) / sigma_in cents.length

/-- Embedding of the radial-profile loop of `frb_qso_autocorr_sigma.py`:
`radial = np.zeros_like(bins)`, then
`for i in range(len(bins) - 1): if np.any(mask): radial[i] = np.nanmean(AC[mask])`.
Entry `b` of the resulting array is the NaN-aware bin mean when the loop
reached bin `b` (that is, `b + 1 < n_bins`) and the mask is nonempty, and
the initial value `0` otherwise.  NaN grid entries are `none`. -/
def radial_profile (h w : ℕ) (AC : Fin h → Fin w → Option ℚ) (b : ℕ) : Option ℚ :=
  if b + 1 < n_bins h w ∧ binCells h w b ≠ [] then
    nanmean ((binCells h w b).map fun p => AC p.1 p.2)
  else some 0

/-- Result record of `fit_dipole` (the dict of `frb_dipole_test.py`).
The undefined R² (reported as `np.nan` in the source) is `none`.  The
source additionally stores the direction converted to `(ra, dec)` degrees
via `arctan2` and `arcsin`; this conversion only exists over `ℝ` and is
provided separately as `dhat_radec`. -/
structure FitResult (K : Type) where
  a : K
  b : K
  dhat : K × K × K
  r2 : Option K
deriving DecidableEq

/-- Per-candidate intermediate record of the `fit_dipole` search loop:
intercept, slope, candidate direction, predicted values and weighted
residual sum of squares. -/
@[ext]
structure Cand (K : Type) (n : ℕ) where
  a : K
  b : K
  d : K × K × K
  yhat : Fin n → K
  ss : K

/-- Embedding of `np.linalg.lstsq` for the `n × 2` design matrix with
columns `u` and `v` and target `c`: the least-squares solution of
`[u v] β = c`.  When the 2×2 normal-equations matrix is invertible this is
the unique solution; when it is singular (exact rank deficiency, the
exact-arithmetic counterpart of the `rcond` cutoff) it is the minimum-norm
solution `β = G⁺ t` computed through the pseudo-inverse of the Gram
matrix `G` (for a singular nonzero PSD 2×2 matrix, `G⁺ = G / (trace G)²`;
division by zero in Lean returns `0`, which matches the pseudo-inverse of
the zero matrix). -/
def lstsq2sol {K : Type} [LinearOrderedField K] (S11 S12 S22 T1 T2 : K) : K × K :=
  if S11 * S22 - S12 * S12 = 0 then
    ((S11 * T1 + S12 * T2) / ((S11 + S22) * (S11 + S22)),
     (S12 * T1 + S22 * T2) / ((S11 + S22) * (S11 + S22)))
  else
    ((S22 * T1 - S12 * T2) / (S11 * S22 - S12 * S12),
     (S11 * T2 - S12 * T1) / (S11 * S22 - S12 * S12))

/-- The normal-equations data of the 2-column least-squares problem:
`S` is the Gram matrix of the weighted design matrix and `T` its product
with the weighted target. -/
def lstsq2 {K : Type} [LinearOrderedField K] {n : ℕ} (u v c : Fin n → K) : K × K :=
  lstsq2sol (∑ i, u i * u i) (∑ i, u i * v i) (∑ i, v i * v i)
    (∑ i, u i * c i) (∑ i, v i * c i)

/-- Projections `ndot = nvecs @ d` of the data directions onto a
candidate direction. -/
def ndotOf {K : Type} [LinearOrderedField K] {n : ℕ}
    (nvecs : Fin n → K × K × K) (d : K × K × K) : Fin n → K :=
  fun i => dot3 (nvecs i) d

/-- The weighted least-squares coefficients `(a_c, b)` for one candidate
direction: the source builds `X = [1, ndot]`, multiplies rows by the
weights (`WX = X * w[:, None]`, `Wy = yc * w`) and solves with
`np.linalg.lstsq`. -/
def betaOf {K : Type} [LinearOrderedField K] {n : ℕ}
    (nvecs : Fin n → K × K × K) (y w : Fin n → K) (ymean : K)
    (d : K × K × K) : K × K :=
  lstsq2 w (fun i => w i * ndotOf nvecs d i) (fun i => w i * (y i - ymean))

/-- One iteration of the candidate loop of `fit_dipole`: recover
`a = a_c + y_mean`, predict `yhat = a + b * ndot`, and score
`ss = Σ w (y - yhat)²`. -/
def fitCand {K : Type} [LinearOrderedField K] {n : ℕ}
    (nvecs : Fin n → K × K × K) (y w : Fin n → K) (ymean : K)
    (d : K × K × K) : Cand K n :=
  { a := (betaOf nvecs y w ymean d).1 + ymean
    b := (betaOf nvecs y w ymean d).2
    d := d
    yhat := fun i =>
      ((betaOf nvecs y w ymean d).1 + ymean) +
        (betaOf nvecs y w ymean d).2 * ndotOf nvecs d i
    ss := ∑ i, w i * (y i -
      (((betaOf nvecs y w ymean d).1 + ymean) +
        (betaOf nvecs y w ymean d).2 * ndotOf nvecs d i)) ^ 2 }

/-- The candidate-selection loop of `fit_dipole`: starting from
`best_ss = inf` every candidate is scored and the first strict minimum
wins (the first candidate always beats `inf`).  An empty candidate list
leaves `best = None`, which the source would crash on; modelled as
`none`. -/
def fitSelect {K : Type} [LinearOrderedField K] {n : ℕ}
    (nvecs : Fin n → K × K × K) (y w : Fin n → K) (ymean : K) :
    List (K × K × K) → Option (Cand K n)
  | [] => none
  | d0 :: rest =>
    some (rest.foldl
      (fun acc d =>
        let c := fitCand nvecs y w ymean d
        if c.ss < acc.ss then c else acc)
      (fitCand nvecs y w ymean d0))

/-- Weighted mean `np.average(y, weights=w)` (defined when `Σ w ≠ 0`). -/
def ymean_of {K : Type} [LinearOrderedField K] {n : ℕ} (y w : Fin n → K) : K :=
  (∑ i, w i * y i) / (∑ i, w i)

/-- Total weighted sum of squares
`ss_tot = np.sum(w * (y - np.average(y, weights=w))**2)`. -/
def ss_tot_of {K : Type} [LinearOrderedField K] {n : ℕ} (y w : Fin n → K) : K :=
  ∑ i, w i * (y i - ymean_of y w) ^ 2

/-- Embedding of `fit_dipole` from `frb_dipole_test.py`, with the
candidate-direction grid as an explicit argument (the source computes the
Fibonacci grid `fib_dirs 4000` inline; see `fit_dipole_full`).  Absent
weights default to all ones.  `np.average` raises `ZeroDivisionError`
when the weights sum to zero (in particular for `N = 0`), modelled as
`none`; the unpacking of `best = None` after an empty candidate loop
would also raise, likewise modelled as `none`. -/
def fit_dipole {K : Type} [LinearOrderedField K] {n : ℕ}
    (d_dirs : List (K × K × K)) (nvecs : Fin n → K × K × K)
    (y : Fin n → K) (wopt : Option (Fin n → K)) :
    Option (FitResult K × (Fin n → K)) :=
  if (∑ i, (wopt.getD fun _ => 1) i) = 0 then none
  else
    match fitSelect nvecs y (wopt.getD fun _ => 1)
        (ymean_of y (wopt.getD fun _ => 1)) d_dirs with
    | none => none
    | some best =>
      some ({ a := best.a, b := best.b, dhat := best.d,
              r2 := if 0 < ss_tot_of y (wopt.getD fun _ => 1) then
                      some (1 - best.ss / ss_tot_of y (wopt.getD fun _ => 1))
                    else none },
            best.yhat)

/-- The Fibonacci-sphere candidate grid of `fit_dipole`:
`z = 1 - 2(k+0.5)/num_dirs`, `r = sqrt(1 - z²)`,
`lon = k · (sqrt 5 - 1)/2 · 2π`. -/
noncomputable def fib_dirs (num_dirs : ℕ) : List (ℝ × ℝ × ℝ) :=
  (List.range num_dirs).map fun k =>
    let z : ℝ := 1 - 2 * ((k : ℝ) + 0.5) / (num_dirs : ℝ)
    let r : ℝ := Real.sqrt (1 - z * z)
    let lon : ℝ := (k : ℝ) * ((Real.sqrt 5 - 1) / 2 * (2 * Real.pi))
    (r * Real.cos lon, r * Real.sin lon, z)

/-- The dipole fit exactly as the source runs it: over `ℝ` with the
4000-point Fibonacci candidate grid. -/
noncomputable def fit_dipole_full {n : ℕ} (nvecs : Fin n → ℝ × ℝ × ℝ)
    (y : Fin n → ℝ) (wopt : Option (Fin n → ℝ)) :
    Option (FitResult ℝ × (Fin n → ℝ)) :=
  fit_dipole (fib_dirs 4000) nvecs y wopt

/-- Python float modulus `x % 360.0` over `ℝ`. -/
noncomputable def pymod360R (x : ℝ) : ℝ :=
  x - 360 * ⌊x / 360⌋

/-- The `(ra, dec)` readout of the winning direction in `fit_dipole`:
`ra = (rad2deg(arctan2(dy, dx)) + 360) % 360`, `dec = rad2deg(arcsin dz)`.
`np.arctan2(y, x)` is the argument of the complex number `x + i y`. -/
noncomputable def dhat_radec (d : ℝ × ℝ × ℝ) : ℝ × ℝ :=
  (pymod360R (rad2deg (Complex.arg { re := d.1, im := d.2.1 }) + 360),
   rad2deg (Real.arcsin d.2.2))

/-- One iteration of the permutation loop of `permutation_pval`:
`idx = rng.permutation(len(y))` reorders the data directions
(`nvecs[idx]`), the fit is rerun, and the iteration counts when
`abs(res["b"]) >= abs(obs_b)`. -/
def permIter {K : Type} [LinearOrderedField K] {n : ℕ}
    (d_dirs : List (K × K × K)) (nvecs : Fin n → K × K × K)
    (y w : Fin n → K) (obs_b : K) (σ : Equiv.Perm (Fin n)) : Bool :=
  match fit_dipole d_dirs (fun i => nvecs (σ i)) y (some w) with
  | some r => decide (|obs_b| ≤ |r.1.b|)
  | none => false

/-- Embedding of `permutation_pval` from `frb_dipole_test.py`.  The
stream of permutations drawn from `np.random.default_rng(seed)` is the
explicit argument `perms` (for a fixed seed it is a fixed deterministic
stream; iteration `t` of the loop uses `perms t`).  A fit failure inside
the loop, which does not depend on the drawn permutation, would raise in
Python; it is modelled by `none`.  Otherwise the result is the smoothed
p-value `(cnt + 1) / (nperm + 1)`. -/
def permutation_pval {K : Type} [LinearOrderedField K] {n : ℕ}
    (d_dirs : List (K × K × K)) (nvecs : Fin n → K × K × K)
    (y w : Fin n → K) (obs_b : K) (nperm : ℕ)
    (perms : ℕ → Equiv.Perm (Fin n)) : Option K :=
  if (∑ i, w i) = 0 ∨ d_dirs = [] then none
  else
    some ((((List.range nperm).countP fun t =>
        permIter d_dirs nvecs y w obs_b (perms t) : ℕ) + 1 : K) /
      ((nperm : K) + 1))

/-- Relabelling of the per-sample axis of a candidate record by a
permutation: only the predicted-values array is index-dependent. -/
def relabelCand {K : Type} [LinearOrderedField K] {n : ℕ}
    (τ : Equiv.Perm (Fin n)) (c : Cand K n) : Cand K n :=
  { c with yhat := fun i => c.yhat (τ i) }

/-- A constant all-ones grid, used for concrete evaluations of the radial
profile. -/
def onesGrid (h w : ℕ) : Fin h → Fin w → Option ℚ :=
  fun _ _ => some 1

/-- Concrete data directions for the evaluation of the dipole fit:
two antipodal points on the x axis. -/
def xPairVecs : Fin 2 → ℚ × ℚ × ℚ :=
  fun i => if i = 0 then (1, 0, 0) else (-1, 0, 0)

/-- Concrete observable values for the evaluation of the dipole fit. -/
def xPairVals : Fin 2 → ℚ :=
  fun i => if i = 0 then 1 else -1

/-! ## Theorems -/

theorem npSign_nonneg_iff {K : Type} [LinearOrderedField K] (x : K) :
    0 ≤ npSign x ↔ 0 ≤ x := by
  unfold npSign
  split_ifs with h h2
  · constructor
    · intro h0; exact absurd h0 (by norm_num)
    · intro h0; exact absurd h (not_lt.mpr h0)
  · simp [h2]
  · constructor
    · intro _; exact not_lt.mp h
    · intro _; norm_num

theorem npSign_neg_iff {K : Type} [LinearOrderedField K] (x : K) :
    npSign x < 0 ↔ x < 0 := by
  rw [← not_le, ← not_le, not_iff_not, npSign_nonneg_iff]

/-- C10: for every array of unit vectors, every co-indexed observable
array `dm` and every axis vector `n0`, the hemisphere split assigns each
sample to exactly one of the two returned groups (dot product `≥ 0`,
including the boundary `0`, goes to the positive hemisphere; `< 0` to the
negative one), so the two returned arrays partition `dm` and their
lengths sum to `len(dm)`. -/
theorem C10_hemisphere_partition {K : Type} [LinearOrderedField K] {n : ℕ}
    (nvecs : Fin n → K × K × K) (dm : Fin n → K) (n0 : K × K × K) :
    (hemispheres nvecs dm n0).1 =
      ((List.finRange n).filter fun i => decide (0 ≤ dot3 (nvecs i) n0)).map dm ∧
    (hemispheres nvecs dm n0).2 =
      ((List.finRange n).filter fun i => decide (dot3 (nvecs i) n0 < 0)).map dm ∧
    (hemispheres nvecs dm n0).1.length + (hemispheres nvecs dm n0).2.length = n ∧
    ((hemispheres nvecs dm n0).1 ++ (hemispheres nvecs dm n0).2).Perm
      ((List.finRange n).map dm) := by
  have hpos : ((List.finRange n).filter fun i =>
      decide (0 ≤ npSign (dot3 (nvecs i) n0))) =
      (List.finRange n).filter fun i => decide (0 ≤ dot3 (nvecs i) n0) :=
    List.filter_congr fun i _ => decide_eq_decide.mpr (npSign_nonneg_iff _)
  have hneg : ((List.finRange n).filter fun i =>
      decide (npSign (dot3 (nvecs i) n0) < 0)) =
      (List.finRange n).filter fun i => decide (dot3 (nvecs i) n0 < 0) :=
    List.filter_congr fun i _ => decide_eq_decide.mpr (npSign_neg_iff _)
  have hnotp : ((List.finRange n).filter fun i => decide (dot3 (nvecs i) n0 < 0)) =
      (List.finRange n).filter fun i => !(decide (0 ≤ dot3 (nvecs i) n0)) :=
    List.filter_congr fun i _ => by
      rw [← decide_not]
      exact decide_eq_decide.mpr not_le.symm
  have hperm : ((hemispheres nvecs dm n0).1 ++ (hemispheres nvecs dm n0).2).Perm
      ((List.finRange n).map dm) := by
    unfold hemispheres
    dsimp only
    rw [hpos, hneg, hnotp, ← List.map_append]
    exact (List.filter_append_perm _ _).map dm
  refine ⟨?_, ?_, ?_, hperm⟩
  · unfold hemispheres
    dsimp only
    rw [hpos]
  · unfold hemispheres
    dsimp only
    rw [hneg]
  · have := hperm.length_eq
    rw [List.length_append] at this
    rw [this, List.length_map, List.length_finRange]

theorem pymod360_of_range (x : ℚ) (h0 : 0 ≤ x) (h1 : x < 360) :
    pymod360 x = x := by
  unfold pymod360
  have hz : ⌊x / 360⌋ = 0 := by
    rw [Int.floor_eq_zero_iff]
    constructor
    · positivity
    · rw [div_lt_one (by norm_num)]
      exact h1
  rw [hz]
  norm_num

theorem pymod360_add_int_mul (x : ℚ) (k : ℤ) :
    pymod360 (x + 360 * (k : ℚ)) = pymod360 x := by
  unfold pymod360
  have hdiv : (x + 360 * (k : ℚ)) / 360 = x / 360 + (k : ℚ) := by
    field_simp
    ring
  rw [hdiv, Int.floor_add_int]
  push_cast
  ring

/-- C6 counterexample: the claim quantifies over all `dec` with
`|2·dec0 − dec| ≤ 90`, but for `dec` outside the physical range
`[-90, 90]` the second reflection clamps: at
`(ra, dec, ra0, dec0) = (0, 100, 0, 55)` the hypotheses of the claim hold
while the double reflection returns `(0, 90) ≠ (0, 100)`. -/
theorem C6_counterexample :
    (0 ≤ (0 : ℚ) ∧ (0 : ℚ) < 360 ∧ |2 * 55 - (100 : ℚ)| ≤ 90) ∧
    reflect_cpt (reflect_cpt 0 100 0 55).1 (reflect_cpt 0 100 0 55).2 0 55 ≠
      ((0 : ℚ), 100) := by
  decide

/-- C6 (amended): for every `(ra, dec, ra0, dec0)` with `ra ∈ [0, 360)`,
`dec ∈ [-90, 90]` and `|2·dec0 − dec| ≤ 90` (so the declination clamp
does not engage in either application), reflecting twice through the same
axis recovers the original point. -/
theorem C6_reflect_involution (ra dec ra0 dec0 : ℚ)
    (hra0 : 0 ≤ ra) (hra1 : ra < 360) (hd : |2 * dec0 - dec| ≤ 90)
    (hdec0 : -90 ≤ dec) (hdec1 : dec ≤ 90) :
    reflect_cpt (reflect_cpt ra dec ra0 dec0).1 (reflect_cpt ra dec ra0 dec0).2
      ra0 dec0 = (ra, dec) := by
  obtain ⟨hv0, hv1⟩ := abs_le.mp hd
  unfold reflect_cpt
  dsimp only
  have hclamp1 : min 90 (max (-90) (2 * dec0 - dec)) = 2 * dec0 - dec := by
    rw [max_eq_right hv0, min_eq_right hv1]
  rw [hclamp1]
  have hra : 2 * ra0 - pymod360 (2 * ra0 - ra) =
      ra + 360 * ((⌊(2 * ra0 - ra) / 360⌋ : ℤ) : ℚ) := by
    unfold pymod360
    ring
  rw [Prod.mk.injEq]
  constructor
  · rw [hra, pymod360_add_int_mul, pymod360_of_range ra hra0 hra1]
  · have : 2 * dec0 - (2 * dec0 - dec) = dec := by ring
    rw [this, max_eq_right (by linarith), min_eq_right hdec1]

/-- C6 witness: a concrete non-clamping double reflection. -/
theorem C6_witness :
    reflect_cpt (reflect_cpt 10 20 30 40).1 (reflect_cpt 10 20 30 40).2 30 40 =
      ((10 : ℚ), 20) :=
  C6_reflect_involution 10 20 30 40 (by norm_num) (by norm_num) (by norm_num)
    (by norm_num) (by norm_num)

/-- C4: for every angle array `deg` and correlation array `corr`, the
crossing-angle extraction returns NaN when `corr` never drops to or below
the target; otherwise, with `i` the first index where `corr[i] ≤ target`,
it returns `deg[0]` if `i = 0` and otherwise the linear interpolation
between `(deg[i-1], corr[i-1])` and `(deg[i], corr[i])` at the target;
in particular `deg = [0,1,2]`, `corr = [1, 0.6, 0.3]`, `target = 0.5`
yields `1 + (0.5-0.6)/(0.3-0.6) = 4/3`. -/
theorem C4_crossing_angle (deg corr : List ℚ) (target : ℚ) :
    ((∀ c ∈ corr, target < c) → crossing_angle deg corr target = none) ∧
    (∀ i, corr.findIdx? (fun c => decide (c ≤ target)) = some i →
      (i = 0 → crossing_angle deg corr target = some (deg.getD 0 0)) ∧
      (0 < i → crossing_angle deg corr target =
        some (deg.getD (i - 1) 0 +
          (target - corr.getD (i - 1) 0) * (deg.getD i 0 - deg.getD (i - 1) 0) /
            (corr.getD i 0 - corr.getD (i - 1) 0)))) ∧
    crossing_angle [0, 1, 2] [1, 3/5, 3/10] (1/2) = some (4/3) := by
  refine ⟨?_, ?_, by decide⟩
  · intro hall
    unfold crossing_angle
    have hnone : corr.findIdx? (fun c => decide (c ≤ target)) = none := by
      rw [List.findIdx?_eq_none_iff]
      intro x hx
      simp only [decide_eq_false_iff_not, not_le]
      exact hall x hx
    rw [hnone]
  · intro i hi
    constructor
    · intro h0
      unfold crossing_angle
      rw [hi]
      subst h0
      dsimp only
      rw [if_neg (lt_irrefl 0)]
    · intro h0
      unfold crossing_angle
      rw [hi]
      dsimp only
      rw [if_pos h0]

/-- C4 witness: a profile that never reaches the target yields `none`,
and a profile already at or below the target at index 0 yields `deg[0]`. -/
theorem C4_witness :
    crossing_angle [0] [1] (1/2) = none ∧
    crossing_angle [0, 1] [1/4, 1] (1/2) = some 0 := by
  constructor
  · exact (C4_crossing_angle [0] [1] (1/2)).1 (by decide)
  · exact (((C4_crossing_angle [0, 1] [1/4, 1] (1/2)).2.1 0 (by decide)).1 rfl).trans
      (by decide)

/-- C5 counterexample: on a `4 × 4` all-ones grid there are two bins, and
the final bin (index 1) has members whose NaN-ignoring mean is `1`, yet
the loop `for i in range(len(bins) - 1)` never fills the final bin, which
stays at its initialized value `0`. -/
theorem C5_counterexample :
    binCells 4 4 1 ≠ [] ∧
    nanmean ((binCells 4 4 1).map fun p => onesGrid 4 4 p.1 p.2) = some 1 ∧
    radial_profile 4 4 (onesGrid 4 4) 1 = some 0 := by
  decide

/-- C5 (amended): for every bin `b` with `b + 1 < n_bins h w` (the bins
actually visited by the loop) the profile value is the NaN-ignoring mean
of the cells at squared distance in `[b², (b+1)²)` when there are any,
and stays at the initialized `0` for an empty bin; the final bin
`b + 1 = n_bins h w` is never visited and always stays at `0`. -/
theorem C5_radial_profile (h w : ℕ) (AC : Fin h → Fin w → Option ℚ) (b : ℕ) :
    (b + 1 < n_bins h w →
      radial_profile h w AC b =
        if binCells h w b ≠ [] then
          nanmean ((binCells h w b).map fun p => AC p.1 p.2)
        else some 0) ∧
    (b + 1 = n_bins h w → radial_profile h w AC b = some 0) := by
  constructor
  · intro hb
    unfold radial_profile
    by_cases hc : binCells h w b = []
    · simp [hb, hc]
    · simp [hb, hc]
  · intro hb
    unfold radial_profile
    rw [if_neg]
    rintro ⟨h1, _⟩
    omega

/-- C5 witness: on the `4 × 4` all-ones grid, bin 0 (visited, nonempty)
evaluates to the bin mean `1`, and the final bin 1 evaluates to `0`. -/
theorem C5_witness :
    radial_profile 4 4 (onesGrid 4 4) 0 = some 1 ∧
    radial_profile 4 4 (onesGrid 4 4) 1 = some 0 := by
  constructor
  · exact ((C5_radial_profile 4 4 (onesGrid 4 4) 0).1 (by decide)).trans (by decide)
  · exact (C5_radial_profile 4 4 (onesGrid 4 4) 1).2 (by decide)

/-- C2 counterexample: `fit_dipole` contains no sample-count check.  A
call with a single sample (`N = 1 < 2`), unit weight and a one-candidate
grid returns a fit result instead of failing. -/
theorem C2_counterexample :
    (fit_dipole [((1 : ℚ), 0, 0)] (fun _ : Fin 1 => ((1 : ℚ), 0, 0))
      (fun _ => 5) (some fun _ => 1)).isSome = true := by
  decide

/-- C2 (amended): `fit_dipole` does not enforce `N ≥ 2` and raises no
`InsufficientDataError`; it fails exactly when the weight sum is zero
(then `np.average` raises `ZeroDivisionError`, which covers `N = 0`) or
the candidate list is empty.  In particular a call with `N = 1` and
nonzero weight sum returns a result. -/
theorem C2_fit_failure_iff {K : Type} [LinearOrderedField K] {n : ℕ}
    (d_dirs : List (K × K × K)) (nvecs : Fin n → K × K × K)
    (y : Fin n → K) (wopt : Option (Fin n → K)) :
    fit_dipole d_dirs nvecs y wopt = none ↔
      (∑ i, (wopt.getD fun _ => 1) i) = 0 ∨ d_dirs = [] := by
  unfold fit_dipole
  by_cases hw : (∑ i, (wopt.getD fun _ => 1) i) = 0
  · simp [hw]
  · cases d_dirs with
    | nil => simp [hw, fitSelect]
    | cons d0 rest => simp [hw, fitSelect]

theorem sum_comp_perm {K : Type} [LinearOrderedField K] {n : ℕ}
    (τ : Equiv.Perm (Fin n)) (f : Fin n → K) :
    (∑ i, f (τ i)) = ∑ i, f i :=
  Fintype.sum_equiv τ _ _ fun _ => rfl

theorem lstsq2_relabel {K : Type} [LinearOrderedField K] {n : ℕ}
    (τ : Equiv.Perm (Fin n)) (u v c : Fin n → K) :
    lstsq2 (fun i => u (τ i)) (fun i => v (τ i)) (fun i => c (τ i)) =
      lstsq2 u v c := by
  unfold lstsq2
  rw [sum_comp_perm τ fun i => u i * u i, sum_comp_perm τ fun i => u i * v i,
    sum_comp_perm τ fun i => v i * v i, sum_comp_perm τ fun i => u i * c i,
    sum_comp_perm τ fun i => v i * c i]

theorem betaOf_relabel {K : Type} [LinearOrderedField K] {n : ℕ}
    (τ : Equiv.Perm (Fin n)) (nvecs : Fin n → K × K × K) (y w : Fin n → K)
    (ymean : K) (d : K × K × K) :
    betaOf (fun i => nvecs (τ i)) (fun i => y (τ i)) (fun i => w (τ i)) ymean d =
      betaOf nvecs y w ymean d := by
  unfold betaOf
  exact lstsq2_relabel τ w (fun i => w i * ndotOf nvecs d i)
    (fun i => w i * (y i - ymean))

theorem fitCand_relabel {K : Type} [LinearOrderedField K] {n : ℕ}
    (τ : Equiv.Perm (Fin n)) (nvecs : Fin n → K × K × K) (y w : Fin n → K)
    (ymean : K) (d : K × K × K) :
    fitCand (fun i => nvecs (τ i)) (fun i => y (τ i)) (fun i => w (τ i)) ymean d =
      relabelCand τ (fitCand nvecs y w ymean d) := by
  unfold fitCand relabelCand
  rw [betaOf_relabel]
  apply Cand.ext
  · rfl
  · rfl
  · rfl
  · rfl
  · exact sum_comp_perm τ fun i => w i * (y i -
      (((betaOf nvecs y w ymean d).1 + ymean) +
        (betaOf nvecs y w ymean d).2 * ndotOf nvecs d i)) ^ 2

theorem fitSelect_relabel {K : Type} [LinearOrderedField K] {n : ℕ}
    (τ : Equiv.Perm (Fin n)) (nvecs : Fin n → K × K × K) (y w : Fin n → K)
    (ymean : K) (ds : List (K × K × K)) :
    fitSelect (fun i => nvecs (τ i)) (fun i => y (τ i)) (fun i => w (τ i)) ymean ds =
      (fitSelect nvecs y w ymean ds).map (relabelCand τ) := by
  cases ds with
  | nil => rfl
  | cons d0 rest =>
    simp only [fitSelect, Option.map_some]
    rw [fitCand_relabel]
    congr 1
    refine List.foldl_hom (relabelCand τ) _ _ rest (fitCand nvecs y w ymean d0) ?_
    intro acc d
    rw [fitCand_relabel]
    have hss : (relabelCand τ (fitCand nvecs y w ymean d)).ss =
        (fitCand nvecs y w ymean d).ss := rfl
    have hss2 : (relabelCand τ acc).ss = acc.ss := rfl
    rw [hss, hss2]
    exact (apply_ite (relabelCand τ) _ _ _).symm

theorem ymean_of_relabel {K : Type} [LinearOrderedField K] {n : ℕ}
    (τ : Equiv.Perm (Fin n)) (y w : Fin n → K) :
    ymean_of (fun i => y (τ i)) (fun i => w (τ i)) = ymean_of y w := by
  unfold ymean_of
  rw [sum_comp_perm τ fun i => w i * y i, sum_comp_perm τ w]

theorem ss_tot_of_relabel {K : Type} [LinearOrderedField K] {n : ℕ}
    (τ : Equiv.Perm (Fin n)) (y w : Fin n → K) :
    ss_tot_of (fun i => y (τ i)) (fun i => w (τ i)) = ss_tot_of y w := by
  unfold ss_tot_of
  rw [ymean_of_relabel]
  exact sum_comp_perm τ fun i => w i * (y i - ymean_of y w) ^ 2

/-- Relabelling the samples of a dipole fit by a permutation changes
nothing except the order of the predicted-values array: the fit depends
only on the set of (direction, value, weight) triples. -/
theorem fit_dipole_relabel {K : Type} [LinearOrderedField K] {n : ℕ}
    (τ : Equiv.Perm (Fin n)) (d_dirs : List (K × K × K))
    (nvecs : Fin n → K × K × K) (y w : Fin n → K) :
    fit_dipole d_dirs (fun i => nvecs (τ i)) (fun i => y (τ i))
        (some fun i => w (τ i)) =
      (fit_dipole d_dirs nvecs y (some w)).map fun p =>
        (p.1, fun i => p.2 (τ i)) := by
  unfold fit_dipole
  simp only [Option.getD_some]
  rw [sum_comp_perm τ w, ymean_of_relabel, ss_tot_of_relabel, fitSelect_relabel]
  by_cases h0 : (∑ i, w i) = 0
  · rw [if_pos h0, if_pos h0]
    rfl
  · rw [if_neg h0, if_neg h0]
    cases fitSelect nvecs y w (ymean_of y w) d_dirs with
    | none => rfl
    | some best => rfl

/-- The iteration body with the data directions reordered by `σ` is the
iteration body with the values and their weights reshuffled by `σ⁻¹`
against fixed directions. -/
theorem permIter_values {K : Type} [LinearOrderedField K] {n : ℕ}
    (d_dirs : List (K × K × K)) (nvecs : Fin n → K × K × K)
    (y w : Fin n → K) (obs_b : K) (σ : Equiv.Perm (Fin n)) :
    permIter d_dirs nvecs y w obs_b σ =
      match fit_dipole d_dirs nvecs (fun i => y (σ.symm i))
          (some fun i => w (σ.symm i)) with
      | some r => decide (|obs_b| ≤ |r.1.b|)
      | none => false := by
  unfold permIter
  have h := fit_dipole_relabel σ d_dirs nvecs (fun i => y (σ.symm i))
    (fun i => w (σ.symm i))
  have hy : (fun i => y (σ.symm (σ i))) = y :=
    funext fun i => by rw [Equiv.symm_apply_apply]
  have hw : (fun i => w (σ.symm (σ i))) = w :=
    funext fun i => by rw [Equiv.symm_apply_apply]
  rw [hy, hw] at h
  rw [h]
  cases fit_dipole d_dirs nvecs (fun i => y (σ.symm i))
      (some fun i => w (σ.symm i)) with
  | none => rfl
  | some p => rfl

/-- C1: for every input, `permutation_pval` (with `perms` the stream of
index permutations drawn from the seeded generator) returns
`(count + 1) / (nperm + 1)`, where `count` is the number of iterations in
which the full fit rerun on the values array randomly reshuffled — each
value keeping its weight — against the fixed directions produces
`|b_permuted| ≥ |b_observed|`; the source reorders `nvecs` instead, which
by `fit_dipole_relabel` is the same fit with values reshuffled by the
inverse permutation.  A zero weight sum or an empty candidate grid makes
every fit in the loop raise (`none`). -/
theorem C1_permutation_pvalue {K : Type} [LinearOrderedField K] {n : ℕ}
    (d_dirs : List (K × K × K)) (nvecs : Fin n → K × K × K)
    (y w : Fin n → K) (obs_b : K) (nperm : ℕ)
    (perms : ℕ → Equiv.Perm (Fin n)) :
    permutation_pval d_dirs nvecs y w obs_b nperm perms =
      if (∑ i, w i) = 0 ∨ d_dirs = [] then none
      else
        some ((((List.range nperm).countP fun t =>
            match fit_dipole d_dirs nvecs (fun i => y ((perms t).symm i))
                (some fun i => w ((perms t).symm i)) with
            | some r => decide (|obs_b| ≤ |r.1.b|)
            | none => false : ℕ) + 1 : K) / ((nperm : K) + 1)) := by
  unfold permutation_pval
  have hfg : (fun t => permIter d_dirs nvecs y w obs_b (perms t)) =
      fun t =>
        match fit_dipole d_dirs nvecs (fun i => y ((perms t).symm i))
            (some fun i => w ((perms t).symm i)) with
        | some r => decide (|obs_b| ≤ |r.1.b|)
        | none => false :=
    funext fun t => permIter_values d_dirs nvecs y w obs_b (perms t)
  rw [hfg]

/-- C7: whenever `fit_dipole` returns a result, its R² field is
`1 - ss_best / ss_tot` with `ss_tot = Σ w (y - weighted_mean(y))²` and
`ss_best` the selected candidate score, and it is NaN (`none`) exactly
when `ss_tot ≤ 0` — reported as a value, not raised as an error. -/
theorem C7_r2_nan_iff {K : Type} [LinearOrderedField K] {n : ℕ}
    (d_dirs : List (K × K × K)) (nvecs : Fin n → K × K × K)
    (y : Fin n → K) (wopt : Option (Fin n → K)) (res : FitResult K)
    (hfit : (fit_dipole d_dirs nvecs y wopt).map Prod.fst = some res) :
    (res.r2 = none ↔ ss_tot_of y (wopt.getD fun _ => 1) ≤ 0) ∧
    (∀ best, fitSelect nvecs y (wopt.getD fun _ => 1)
        (ymean_of y (wopt.getD fun _ => 1)) d_dirs = some best →
      0 < ss_tot_of y (wopt.getD fun _ => 1) →
      res.r2 = some (1 - best.ss / ss_tot_of y (wopt.getD fun _ => 1))) := by
  unfold fit_dipole at hfit
  by_cases hw : (∑ i, (wopt.getD fun _ => 1) i) = 0
  · rw [if_pos hw] at hfit
    cases hfit
  · rw [if_neg hw] at hfit
    cases hsel : fitSelect nvecs y (wopt.getD fun _ => 1)
        (ymean_of y (wopt.getD fun _ => 1)) d_dirs with
    | none =>
      rw [hsel] at hfit
      cases hfit
    | some best =>
      rw [hsel] at hfit
      have hres : res =
          { a := best.a, b := best.b, dhat := best.d,
            r2 := if 0 < ss_tot_of y (wopt.getD fun _ => 1) then
                some (1 - best.ss / ss_tot_of y (wopt.getD fun _ => 1))
              else none } :=
        (Option.some.inj hfit).symm
      have hr2 : res.r2 =
          if 0 < ss_tot_of y (wopt.getD fun _ => 1) then
            some (1 - best.ss / ss_tot_of y (wopt.getD fun _ => 1))
          else none := by
        rw [hres]
      constructor
      · rw [hr2]
        by_cases hpos : 0 < ss_tot_of y (wopt.getD fun _ => 1)
        · rw [if_pos hpos]
          constructor
          · intro hcontra
            cases hcontra
          · intro hle
            exact absurd hpos (not_lt.mpr hle)
        · rw [if_neg hpos]
          exact ⟨fun _ => not_lt.mp hpos, fun _ => rfl⟩
      · intro best2 hsel2 hpos
        have hb : best2 = best := (Option.some.inj hsel2).symm
        rw [hb, hr2]
        exact if_pos hpos

/-- C7 witness: the two-sample perfect dipole `y = (1, -1)` on antipodal
x-axis directions with the single candidate `(1,0,0)`: the fit returns
`r2 = some 1`, `ss_tot = 2 > 0` and `ss_best = 0`. -/
theorem C7_witness :
    ((({ a := 0, b := 1, dhat := ((1 : ℚ), 0, 0), r2 := some 1 } : FitResult ℚ).r2 =
        none) ↔
      ss_tot_of xPairVals ((some fun _ => (1 : ℚ)).getD fun _ => 1) ≤ 0) ∧
    (∀ best, fitSelect xPairVecs xPairVals ((some fun _ => (1 : ℚ)).getD fun _ => 1)
        (ymean_of xPairVals ((some fun _ => (1 : ℚ)).getD fun _ => 1))
        [((1 : ℚ), 0, 0)] = some best →
      0 < ss_tot_of xPairVals ((some fun _ => (1 : ℚ)).getD fun _ => 1) →
      ({ a := 0, b := 1, dhat := ((1 : ℚ), 0, 0), r2 := some 1 } : FitResult ℚ).r2 =
        some (1 - best.ss /
          ss_tot_of xPairVals ((some fun _ => (1 : ℚ)).getD fun _ => 1))) :=
  C7_r2_nan_iff [((1 : ℚ), 0, 0)] xPairVecs xPairVals (some fun _ => 1)
    { a := 0, b := 1, dhat := ((1 : ℚ), 0, 0), r2 := some 1 } (by decide)

/-- C8: two runs of the permutation test on the same inputs with the same
seed produce identical p-values: the permutation stream is a
deterministic function of the seed (`np.random.default_rng(seed)` is an
explicitly seeded deterministic generator, modelled by an arbitrary
stream-valued function of the seed), and the rest of the computation is a
pure function of its inputs and that stream. -/
theorem C8_seed_determinism {K : Type} [LinearOrderedField K] {n : ℕ}
    (d_dirs : List (K × K × K)) (nvecs : Fin n → K × K × K)
    (y w : Fin n → K) (obs_b : K) (nperm : ℕ)
    (rng_stream : ℕ → ℕ → Equiv.Perm (Fin n)) (seed1 seed2 : ℕ)
    (hseed : seed1 = seed2) :
    permutation_pval d_dirs nvecs y w obs_b nperm (rng_stream seed1) =
      permutation_pval d_dirs nvecs y w obs_b nperm (rng_stream seed2) := by
  rw [hseed]

/-- C8 witness: a concrete run evaluated twice with seed 123 agrees, and
the common value evaluates to the smoothed p-value 1 for zero
permutations. -/
theorem C8_witness :
    permutation_pval [((1 : ℚ), 0, 0)] (fun _ : Fin 1 => ((1 : ℚ), 0, 0))
        (fun _ => 5) (fun _ => 1) 0 0 ((fun _ _ => Equiv.refl (Fin 1)) 123) =
      permutation_pval [((1 : ℚ), 0, 0)] (fun _ : Fin 1 => ((1 : ℚ), 0, 0))
        (fun _ => 5) (fun _ => 1) 0 0 ((fun _ _ => Equiv.refl (Fin 1)) 123) ∧
    permutation_pval [((1 : ℚ), 0, 0)] (fun _ : Fin 1 => ((1 : ℚ), 0, 0))
        (fun _ => 5) (fun _ => 1) 0 0 ((fun _ _ => Equiv.refl (Fin 1)) 123) =
      some 1 :=
  ⟨C8_seed_determinism [((1 : ℚ), 0, 0)] (fun _ : Fin 1 => ((1 : ℚ), 0, 0))
      (fun _ => 5) (fun _ => 1) 0 0 (fun _ _ => Equiv.refl (Fin 1)) 123 123 rfl,
    by decide⟩

theorem ang_sep_self (a b : ℝ) : ang_sep a b a b = 0 := by
  unfold ang_sep
  have hinner : Real.sin b * Real.sin b + Real.cos b * Real.cos b * Real.cos (a - a) = 1 := by
    rw [sub_self, Real.cos_zero]
    have h := Real.sin_sq_add_cos_sq b
    linear_combination h
  rw [hinner]
  have hmax : max (-1 : ℝ) 1 = 1 := max_eq_right (by norm_num)
  rw [hmax, min_self, Real.arccos_one]
  unfold rad2deg
  rw [zero_mul]

theorem ang_sep_pole : ang_sep 0 (Real.pi / 2) (deg2rad 0) (deg2rad (-90)) = 180 := by
  unfold ang_sep
  have hdec : deg2rad (-90) = -(Real.pi / 2) := by
    unfold deg2rad
    ring
  have hinner : Real.sin (Real.pi / 2) * Real.sin (deg2rad (-90)) +
      Real.cos (Real.pi / 2) * Real.cos (deg2rad (-90)) * Real.cos (0 - deg2rad 0) = -1 := by
    rw [hdec, Real.sin_neg, Real.sin_pi_div_two, Real.cos_pi_div_two]
    ring
  rw [hinner]
  have hmax : max (-1 : ℝ) (-1) = -1 := max_self _
  have hmin : min (1 : ℝ) (-1) = -1 := min_eq_right (by norm_num)
  rw [hmax, hmin, Real.arccos_neg_one]
  unfold rad2deg
  rw [mul_comm, div_mul_cancel₀]
  exact Real.pi_ne_zero

/-- C3: `AxisSignificanceMapper` counts centroids at separation strictly
below `THETA_MAX` from a grid node and standardizes with
`μ = N (A_in / A_tot)` and `σ = sqrt μ`; when every centroid is at
separation `≥ θ_max` from the node, its Z is `(0 − μ)/σ = −sqrt μ`, and
when all `N = 100` centroids fall within `θ_max` of the node, its density
is `100` and its Z is `(100 − μ)/σ`. -/
theorem C3_axis_significance (cents : List (ℝ × ℝ)) (r d : ℝ) :
    ((∀ c ∈ cents, THETA_MAX ≤ ang_sep c.1 c.2 (deg2rad r) (deg2rad d)) →
      Z_at cents r d = -Real.sqrt (mu_in cents.length)) ∧
    (cents.length = 100 →
      (∀ c ∈ cents, ang_sep c.1 c.2 (deg2rad r) (deg2rad d) < THETA_MAX) →
      density_at cents r d = 100 ∧
      Z_at cents r d = ((100 : ℝ) - mu_in 100) / sigma_in 100) := by
  constructor
  · intro hfar
    have hd0 : density_at cents r d = 0 := by
      unfold density_at
      rw [List.length_eq_zero, List.filter_eq_nil_iff]
      intro c hc
      simp only [decide_eq_true_eq, not_lt]
      exact hfar c hc
    unfold Z_at sigma_in
    rw [hd0]
    push_cast
    rw [zero_sub, neg_div, Real.div_sqrt]
  · intro hlen hin
    have hdens : density_at cents r d = 100 := by
      unfold density_at
      have hfil : (cents.filter fun c =>
          decide (ang_sep c.1 c.2 (deg2rad r) (deg2rad d) < THETA_MAX)) = cents :=
        List.filter_eq_self.mpr fun c hc => decide_eq_true (hin c hc)
      rw [hfil, hlen]
    refine ⟨hdens, ?_⟩
    unfold Z_at sigma_in
    rw [hdens, hlen]
    norm_num

/-- C3 witness: a single centroid at the north pole is 180° from the
south-pole grid node, giving `Z = -sqrt μ`; one hundred centroids placed
exactly on the node `(10°, 20°)` give density 100 and `Z = (100 − μ)/σ`. -/
theorem C3_witness :
    Z_at [((0 : ℝ), Real.pi / 2)] 0 (-90) = -Real.sqrt (mu_in 1) ∧
    (density_at (List.replicate 100 ((deg2rad 10, deg2rad 20) : ℝ × ℝ)) 10 20 = 100 ∧
     Z_at (List.replicate 100 ((deg2rad 10, deg2rad 20) : ℝ × ℝ)) 10 20 =
       ((100 : ℝ) - mu_in 100) / sigma_in 100) := by
  constructor
  · refine (C3_axis_significance [((0 : ℝ), Real.pi / 2)] 0 (-90)).1 ?_
    intro c hc
    have hce : c = ((0 : ℝ), Real.pi / 2) := by
      cases List.mem_singleton.mp hc
      rfl
    rw [hce]
    show THETA_MAX ≤ ang_sep 0 (Real.pi / 2) (deg2rad 0) (deg2rad (-90))
    rw [ang_sep_pole]
    unfold THETA_MAX
    norm_num
  · refine (C3_axis_significance (List.replicate 100 ((deg2rad 10, deg2rad 20) : ℝ × ℝ))
      10 20).2 (by rw [List.length_replicate]) ?_
    intro c hc
    have hce : c = ((deg2rad 10, deg2rad 20) : ℝ × ℝ) := List.eq_of_mem_replicate hc
    rw [hce]
    show ang_sep (deg2rad 10) (deg2rad 20) (deg2rad 10) (deg2rad 20) < THETA_MAX
    rw [ang_sep_self]
    unfold THETA_MAX
    norm_num

/-- C9: elementwise, `sph_to_cart` returns
`(cos dec cos ra, cos dec sin ra, sin dec)` in radians, the returned
vector has Euclidean norm 1 within `1e-9` (it is exactly 1 in exact
arithmetic), and `unit_vectors` computes the same vectors. -/
theorem C9_unit_vector_norm {N : ℕ} (ra dec : Fin N → ℝ)
    (hra : ∀ i, 0 ≤ ra i ∧ ra i < 360)
    (hdec : ∀ i, -90 ≤ dec i ∧ dec i ≤ 90) (i : Fin N) :
    sph_to_cart ra dec i =
      (Real.cos (deg2rad (dec i)) * Real.cos (deg2rad (ra i)),
       Real.cos (deg2rad (dec i)) * Real.sin (deg2rad (ra i)),
       Real.sin (deg2rad (dec i))) ∧
    |Real.sqrt ((sph_to_cart ra dec i).1 ^ 2 + (sph_to_cart ra dec i).2.1 ^ 2 +
        (sph_to_cart ra dec i).2.2 ^ 2) - 1| ≤ 1e-9 ∧
    unit_vectors ra dec i = sph_to_cart ra dec i := by
  refine ⟨rfl, ?_, rfl⟩
  have hsum : (sph_to_cart ra dec i).1 ^ 2 + (sph_to_cart ra dec i).2.1 ^ 2 +
      (sph_to_cart ra dec i).2.2 ^ 2 = 1 := by
    unfold sph_to_cart
    dsimp only
    have h1 := Real.sin_sq_add_cos_sq (deg2rad (ra i))
    have h2 := Real.sin_sq_add_cos_sq (deg2rad (dec i))
    linear_combination Real.cos (deg2rad (dec i)) ^ 2 * h1 + h2
  rw [hsum, Real.sqrt_one]
  norm_num

/-- C9 witness: the vector for `(ra, dec) = (0°, 0°)` is `(1, 0, 0)` by
the stated formula and has norm exactly 1. -/
theorem C9_witness :
    sph_to_cart (fun _ : Fin 1 => (0 : ℝ)) (fun _ => 0) 0 =
      (Real.cos (deg2rad 0) * Real.cos (deg2rad 0),
       Real.cos (deg2rad 0) * Real.sin (deg2rad 0),
       Real.sin (deg2rad 0)) ∧
    |Real.sqrt ((sph_to_cart (fun _ : Fin 1 => (0 : ℝ)) (fun _ => 0) 0).1 ^ 2 +
        (sph_to_cart (fun _ : Fin 1 => (0 : ℝ)) (fun _ => 0) 0).2.1 ^ 2 +
        (sph_to_cart (fun _ : Fin 1 => (0 : ℝ)) (fun _ => 0) 0).2.2 ^ 2) - 1| ≤ 1e-9 ∧
    unit_vectors (fun _ : Fin 1 => (0 : ℝ)) (fun _ => 0) 0 =
      sph_to_cart (fun _ : Fin 1 => (0 : ℝ)) (fun _ => 0) 0 :=
  C9_unit_vector_norm (fun _ => 0) (fun _ => 0)
    (fun _ => ⟨le_refl 0, by norm_num⟩) (fun _ => ⟨by norm_num, by norm_num⟩) 0
